import Mathlib

set_option maxHeartbeats 1000000

/-! Shallow embedding of gdshelpers' fracture/heal engine
    (gdshelpers/geometry/shapely_adapter.py), of the Cell layout graph
    (gdshelpers/geometry/chip.py) and of the GDSII binary codec
    (gdshelpers/export/gdsii_export.py).

    Modelling conventions used throughout:
    * Python floats are modelled as exact rationals (`ℚ`); `math.log` is
      modelled as the exact real logarithm.
    * Operations performed by external libraries (shapely's geometry kernel:
      `intersection`, `union`, `touches`, `centroid`; numpy's trigonometry and
      `rad2deg`) are bundled in an `GeomExt` oracle structure.  Every theorem is
      proved for an arbitrary oracle, hence in particular for the behaviour of
      the real libraries.
    * Python object identity of `Cell` objects is modelled by a `cid` tag;
      a Python `Cell` tree is a `Cell` value whose occurrences carry pairwise
      distinct tags.
    * Python `while` loops that traverse a worklist are modelled with an
      explicit fuel argument chosen so that fuel exhaustion coincides exactly
      with regular loop exit (for loops that always terminate), or with an
      `Option` result (for `fracture`, whose worklist loop has no iteration
      cap in the source). -/

abbrev Pt := ℚ × ℚ

/-- A basic shapely value: a polygon (exterior ring plus interior rings, each
ring stored as its closed coordinate list, first point repeated at the end as
shapely materialises it), a line string with the optional dynamically-attached
`width` attribute used by the GDSII path writer, or a point. -/
inductive Shape where
  | polygon (outer : List Pt) (holes : List (List Pt))
  | line (pts : List Pt) (width : Option ℚ)
  | point (p : Pt)
deriving DecidableEq

/-- Python `type(x) == shapely.geometry.Polygon`. -/
def Shape.isPolygon : Shape → Bool
  | .polygon _ _ => true
  | _ => false

/-- Number of interior rings, `len(polygon.interiors)` (0 for non-polygons). -/
def Shape.holeCount : Shape → ℕ
  | .polygon _ hs => hs.length
  | _ => 0

/-- First interior ring, `polygon.interiors[0]`; only evaluated by `fracture`
when the hole budget is exceeded, hence on a polygon with at least one hole. -/
def Shape.firstInterior : Shape → List Pt
  | .polygon _ (h :: _) => h
  | _ => []

/-- Shapely `is_empty` for the basic shapes of this model. -/
def Shape.isEmpty : Shape → Bool
  | .polygon outer _ => outer.isEmpty
  | .line pts _ => pts.isEmpty
  | .point _ => false

/-- Translation of `shapely_adapter._number_of_points`: exterior length plus
the lengths of the interior rings for polygons, coordinate count otherwise
(the memoisation attribute of the source is irrelevant for a pure model). -/
def _number_of_points : Shape → ℕ
  | .polygon outer hs => outer.length + (hs.map List.length).sum
  | .line pts _ => pts.length
  | .point _ => 1

/-- A bounds tuple (min_x, min_y, max_x, max_y). -/
structure B4 where
  minx : ℚ
  miny : ℚ
  maxx : ℚ
  maxy : ℚ
deriving DecidableEq

/-- All coordinates of a shape, used for the exact bounds computation. -/
def Shape.coordsOf : Shape → List Pt
  | .polygon outer hs => outer ++ hs.flatMap id
  | .line pts _ => pts
  | .point p => [p]

/-- Shapely `.bounds`: the coordinate-wise envelope, `none` for an empty
geometry (shapely returns the empty tuple there, which `Cell.get_bounds`
skips). -/
def shapeBounds (s : Shape) : Option B4 :=
  match s.coordsOf with
  | [] => none
  | p :: rest =>
    some (rest.foldl
      (fun b q => ⟨min b.minx q.1, min b.miny q.2, max b.maxx q.1, max b.maxy q.2⟩)
      ⟨p.1, p.2, p.1, p.2⟩)

/-- External operations: shapely's geometry kernel and numpy's floating-point
helpers.  `intersect` stands for `obj.intersection(box)` followed by the
`.geoms` decomposition into basic shapes, `centroid` for
`ring.centroid.coords[0]`, `touches`/`unionS` for `a.touches(b)`/`a.union(b)`,
`rad2deg` for `np.rad2deg`, and `qcos`/`qsin` for `np.cos`/`np.sin`.  All
results are proved for an arbitrary oracle. -/
structure GeomExt where
  intersect : Shape → B4 → List Shape
  centroid : List Pt → Pt
  touches : Shape → Shape → Bool
  unionS : Shape → Shape → Shape
  rad2deg : ℚ → ℚ
  qcos : ℚ → ℚ
  qsin : ℚ → ℚ

/-- Translation of `shapely_adapter.cut_shapely_object` (the
`TopologicalError` repair path, which retries on `obj.buffer(0)`, is not
modelled: the oracle's `intersect` is total).  The padded bounding box, the
choice of cut axis (vertical when width ≥ height, matching `np.argmax` which
returns the first maximum) and the post-filtering of line fragments for
polygon inputs follow the source. -/
def cut_shapely_object (E : GeomExt) (obj : Shape) (x_axis y_axis : Option ℚ)
    (other_side : Bool) : List Shape :=
  let b := (shapeBounds obj).getD ⟨0, 0, 0, 0⟩
  let bbox : B4 := ⟨b.minx - 1, b.miny - 1, b.maxx + 1, b.maxy + 1⟩
  let cut_center : Option ℚ × Option ℚ :=
    match x_axis, y_axis with
    | none, none => (some ((bbox.minx + bbox.maxx) / 2), some ((bbox.miny + bbox.maxy) / 2))
    | _, _ => (x_axis, y_axis)
  let axes : Option ℚ × Option ℚ :=
    if (x_axis.isSome ^^ y_axis.isSome) = false then
      if (decide (bbox.maxx - bbox.minx ≥ bbox.maxy - bbox.miny)) ≠ other_side then
        (cut_center.1, none)
      else
        (none, cut_center.2)
    else (x_axis, y_axis)
  let cut_boxes : List B4 :=
    match axes.1 with
    | some x => [⟨bbox.minx, bbox.miny, x, bbox.maxy⟩, ⟨x, bbox.miny, bbox.maxx, bbox.maxy⟩]
    | none =>
      let y := axes.2.getD 0
      [⟨bbox.minx, bbox.miny, bbox.maxx, y⟩, ⟨bbox.minx, y, bbox.maxx, bbox.maxy⟩]
  let out_polygons := cut_boxes.flatMap (fun box => E.intersect obj box)
  if obj.isPolygon then
    out_polygons.filter (fun s => match s with | .line _ _ => false | _ => true)
  else out_polygons

/-- Worklist loop of `shapely_adapter.fracture`.  The source imposes no
iteration cap, so the loop is modelled with fuel and `none` stands for a run
that has not terminated within the given fuel.  Each iteration inspects the
element at `done_counter`: a polygon with too many holes is popped and cut at
the centroid of its first hole, an over-budget shape is popped and cut along
its longer side, and an in-budget shape lets the counter advance. -/
def fractureLoop (E : GeomExt) (max_points_poly max_points_line : ℚ) (max_interior : ℤ) :
    ℕ → List Shape → ℕ → Option (List Shape)
  | 0, _, _ => none
  | fuel + 1, out_polygons, done_counter =>
    if h : done_counter < out_polygons.length then
      let current := out_polygons.get ⟨done_counter, h⟩
      let max_points := if current.isPolygon then max_points_poly else max_points_line
      if current.isPolygon = true ∧ (current.holeCount : ℤ) > max_interior then
        let cut_point := E.centroid current.firstInterior
        fractureLoop E max_points_poly max_points_line max_interior fuel
          (out_polygons.eraseIdx done_counter ++
            cut_shapely_object E current (some cut_point.1) (some cut_point.2) false)
          done_counter
      else if max_points ≠ 0 ∧ (_number_of_points current : ℚ) > max_points ∧ max_points > 0 then
        fractureLoop E max_points_poly max_points_line max_interior fuel
          (out_polygons.eraseIdx done_counter ++
            cut_shapely_object E current none none false)
          done_counter
      else
        fractureLoop E max_points_poly max_points_line max_interior fuel
          out_polygons (done_counter + 1)
    else some out_polygons

/-- Translation of `shapely_adapter.fracture` (fuel-indexed). -/
def fracture (E : GeomExt) (fuel : ℕ) (obj : Shape)
    (max_points_poly max_points_line : ℚ) (max_interior : ℤ) : Option (List Shape) :=
  fractureLoop E max_points_poly max_points_line max_interior fuel [obj] 0

/-- Result list after a successful merge in `heal`: the union is appended and
the two merged fragments are deleted, larger index first, exactly as
`objs.append(joined); del objs[max i j]; del objs[min i j]` does. -/
def mergeAt (objs : List Shape) (i j : ℕ) (u : Shape) : List Shape :=
  ((objs ++ [u]).eraseIdx (max i j)).eraseIdx (min i j)

/-- Inner `for j, polygon2 in enumerate(objs)` scan of `heal`, looking for the
first partner that the fragment at `i` can merge with.  Returns the partner
index and the union.  Fuel `objs.length - j` is always sufficient: fuel
exhaustion coincides with `j` running off the end, where the scan fails. -/
def healScan (E : GeomExt) (max_points : ℚ) (max_interior : ℤ) (p : Shape) (pPts : ℕ)
    (objs : List Shape) : ℕ → ℕ → Option (ℕ × Shape)
  | 0, _ => none
  | fuel + 1, j =>
    if h : j < objs.length then
      let q := objs.get ⟨j, h⟩
      if p = q then healScan E max_points max_interior p pPts objs fuel (j + 1)
      else if q.isPolygon = false then healScan E max_points max_interior p pPts objs fuel (j + 1)
      else if max_points ≠ 0 ∧ ((pPts + _number_of_points q : ℕ) : ℚ) ≥ max_points - 2 then
        healScan E max_points max_interior p pPts objs fuel (j + 1)
      else if E.touches p q then
        let joined := E.unionS p q
        if joined.isPolygon = false then healScan E max_points max_interior p pPts objs fuel (j + 1)
        else if (joined.holeCount : ℤ) > max_interior then
          healScan E max_points max_interior p pPts objs fuel (j + 1)
        else if max_points ≠ 0 ∧ ((_number_of_points joined : ℕ) : ℚ) ≥ max_points then
          healScan E max_points max_interior p pPts objs fuel (j + 1)
        else some (j, joined)
      else healScan E max_points max_interior p pPts objs fuel (j + 1)
    else none

/-- Outer `for i, polygon in enumerate(objs)` sweep of `heal`.  After a merge
the Python iterator continues at index `i + 1` of the mutated list, which is
what the recursive call does.  The returned flag is `segments_joined`.  Fuel
`objs.length - i` is always sufficient: exhaustion coincides with `i` running
off the end, where the sweep stops with flag `false`. -/
def healPass (E : GeomExt) (max_points : ℚ) (max_interior : ℤ) :
    ℕ → List Shape → ℕ → List Shape × Bool
  | 0, objs, _ => (objs, false)
  | fuel + 1, objs, i =>
    if h : i < objs.length then
      let p := objs.get ⟨i, h⟩
      if p.isPolygon = false then healPass E max_points max_interior fuel objs (i + 1)
      else
        match healScan E max_points max_interior p (_number_of_points p) objs objs.length 0 with
        | none => healPass E max_points max_interior fuel objs (i + 1)
        | some (j, joined) =>
          ((healPass E max_points max_interior fuel (mergeAt objs i j joined) (i + 1)).1, true)
    else (objs, false)

/-- The `while segments_joined` loop of `heal`.  Each pass that merged
something shortens the list, so `objs.length + 1` passes always suffice and
fuel exhaustion is unreachable. -/
def healWhile (E : GeomExt) (max_points : ℚ) (max_interior : ℤ) :
    ℕ → List Shape → List Shape
  | 0, objs => objs
  | fuel + 1, objs =>
    match healPass E max_points max_interior objs.length objs 0 with
    | (objs2, false) => objs2
    | (objs2, true) => healWhile E max_points max_interior fuel objs2

/-- Translation of `shapely_adapter.heal`. -/
def heal (E : GeomExt) (objs : List Shape) (max_points : ℚ) (max_interior : ℤ) : List Shape :=
  healWhile E max_points max_interior (objs.length + 1) objs

/-- Translation of `shapely_adapter.fracture_intelligently` (fuel-indexed; the
division `max_points / over_fracture_factor` is Python 3 true division, exact
on rationals).  `heal` is called with its default `max_interior = 0`. -/
def fracture_intelligently (E : GeomExt) (fuel : ℕ) (obj : Shape)
    (max_points max_points_line over_fracture_factor : ℚ) : Option (List Shape) :=
  if over_fracture_factor ≥ 1 then
    (fracture E fuel obj (max_points / over_fracture_factor) max_points_line 0).map
      (fun fractured => heal E fractured max_points 0)
  else
    fracture E fuel obj max_points max_points_line 0

/-- Big-endian 2-byte encoding of an unsigned 16-bit value (`struct` format
`H`; all values written by the codec fit). -/
def be16 (n : ℕ) : List ℕ :=
  [n / 256 % 256, n % 256]

/-- Big-endian 2-byte two's-complement encoding of a signed 16-bit value
(`struct` format `h`, used for COLROW). -/
def be16i (z : ℤ) : List ℕ :=
  be16 (z % 65536).toNat

/-- Big-endian 4-byte two's-complement encoding of a signed 32-bit value
(numpy dtype `>i4` and `struct` format `i`). -/
def be32i (z : ℤ) : List ℕ :=
  let m := (z % 4294967296).toNat
  [m / 16777216 % 256, m / 65536 % 256, m / 256 % 256, m % 256]

/-- Big-endian 8-byte encoding of a natural number,
`int.to_bytes(8, 'big')`. -/
def be64n (n : ℕ) : List ℕ :=
  [n / 72057594037927936 % 256, n / 281474976710656 % 256, n / 1099511627776 % 256,
   n / 4294967296 % 256, n / 16777216 % 256, n / 65536 % 256, n / 256 % 256, n % 256]

/-- Round-half-to-even on rationals: the rounding performed by Python's
`round` and numpy's `np.round` (on values exactly representable, which is how
floats are modelled here). -/
def roundHalfEven (q : ℚ) : ℤ :=
  let f := ⌊q⌋
  let r := q - (f : ℚ)
  if r < 1 / 2 then f
  else if 1 / 2 < r then f + 1
  else if f % 2 = 0 then f else f + 1

/-- Python float `%`: result carries the divisor's sign,
`a - b * floor(a / b)`. -/
def qmod (a b : ℚ) : ℚ :=
  a - b * (⌊a / b⌋ : ℚ)

/-- Floor of the base-16 logarithm of a positive rational, the exact value of
`math.log(abs(value), 16)` rounded down.  (The Python implementation computes
the logarithm in floating point; this model uses the exact logarithm.) -/
def floorLog16 (q : ℚ) : ℤ :=
  if 1 ≤ q then (Nat.log 16 ⌊q⌋.toNat : ℤ)
  else -(Nat.clog 16 ⌈q⁻¹⌉.toNat : ℤ)

/-- Translation of `gdsii_export._real_to_8byte`.  Note that the source adds
the sign flag `0b1` directly to `exponent + 64` instead of shifting it to
bit 63; the model reproduces this faithfully.  `int(x)` on the non-negative
mantissa is the floor. -/
def _real_to_8byte (value : ℚ) : List ℕ :=
  if value = 0 then List.replicate 8 0
  else
    let exponent : ℤ := floorLog16 |value| + 1
    let mantissa : ℤ := ⌊|value| * (16 : ℚ) ^ (14 - exponent)⌋
    be64n ((((if value < 0 then 1 else 0) + exponent + 64) * 72057594037927936 + mantissa).toNat)

/-- ASCII bytes of a string (cell names are ASCII in this model, as
`str.encode('ascii')` requires). -/
def asciiBytes (s : String) : List ℕ :=
  s.toList.map Char.toNat

/-- NUL-pad a name to even length, `name + '\0' * (len(name) % 2)`. -/
def padName (s : String) : String :=
  if s.length % 2 = 1 then s.push (Char.ofNat 0) else s

/-- A GDSII layer key of `Cell.layer_dict`: either a plain integer layer or a
(layer, datatype) pair. -/
inductive LayerId where
  | int (n : ℕ)
  | pair (l d : ℕ)
deriving DecidableEq

/-- Layer number written to the LAYER record:
`layer if isinstance(layer, int) else layer[0]`. -/
def LayerId.layerNum : LayerId → ℕ
  | .int n => n
  | .pair l _ => l

/-- Datatype number written to the DATATYPE record:
`layer if isinstance(layer, int) else layer[1]`. -/
def LayerId.datatypeNum : LayerId → ℕ
  | .int n => n
  | .pair _ d => d

/-- Placement data of one child-cell instance as stored by `Cell.add_cell`:
`dict(cell=, origin=, angle=, magnification=None, x_reflection=False,
columns=, rows=, spacing=)`.  The angle is in radians as in the source; the
codec converts it with the oracle's `rad2deg`. -/
structure CRef where
  origin : Pt
  angle : Option ℚ
  magnification : Option ℚ
  x_reflection : Bool
  columns : ℤ
  rows : ℤ
  spacing : Option (ℚ × ℚ)
deriving DecidableEq

mutual
/-- The layout-graph node of `gdshelpers.geometry.chip.Cell`: the Python
object's identity tag `cid`, its `name`, its insertion-ordered `layer_dict`,
its child instances `cells` and the bounding-box cache `_bounds`.  The
geometry values stored per layer are basic shapes. -/
inductive Cell where
  | mk (cid : ℕ) (name : String) (layers : List (LayerId × List Shape))
       (kids : CKids) (bcache : Option B4)
/-- The ordered `cells` list of a `Cell`: instance records paired with the
referenced child cell. -/
inductive CKids where
  | nil
  | cons (ref : CRef) (child : Cell) (rest : CKids)
end

/-- Identity tag of a cell (models Python `id`-based object identity). -/
def Cell.cid : Cell → ℕ
  | .mk i _ _ _ _ => i

/-- Name of a cell. -/
def Cell.name : Cell → String
  | .mk _ n _ _ _ => n

/-- Layer dictionary of a cell. -/
def Cell.layers : Cell → List (LayerId × List Shape)
  | .mk _ _ ls _ _ => ls

/-- Child instances of a cell. -/
def Cell.kids : Cell → CKids
  | .mk _ _ _ ks _ => ks

/-- Bounding-box cache of a cell (`Cell._bounds`). -/
def Cell.bcache : Cell → Option B4
  | .mk _ _ _ _ b => b

/-- Translation of `Cell.__init__`: a fresh cell has no layers, no children
and an empty bounding-box cache. -/
def Cell.new (cid : ℕ) (name : String) : Cell :=
  .mk cid name [] .nil none

/-- The `layer_dict[layer] += geometry` update (creating the key at the end of
the insertion order when absent, as a Python dict does). -/
def addToLayerDict : List (LayerId × List Shape) → LayerId → List Shape →
    List (LayerId × List Shape)
  | [], l, gs => [(l, gs)]
  | (l2, gs2) :: rest, l, gs =>
    if l2 = l then (l2, gs2 ++ gs) :: rest
    else (l2, gs2) :: addToLayerDict rest l gs

/-- Translation of `Cell.add_to_layer`: invalidates the bounding-box cache and
appends the geometry to the layer's list. -/
def Cell.add_to_layer (c : Cell) (layer : LayerId) (geometry : List Shape) : Cell :=
  match c with
  | .mk cid nm ls ks _ => .mk cid nm (addToLayerDict ls layer geometry) ks none

/-- Append a child instance at the end of the `cells` list. -/
def CKids.append (ks : CKids) (r : CRef) (child : Cell) : CKids :=
  match ks with
  | .nil => .cons r child .nil
  | .cons r2 c2 rest => .cons r2 c2 (rest.append r child)

/-- Translation of `Cell.add_cell`: appends the instance record with
`magnification=None` and `x_reflection=False`; the bounding-box cache of the
parent is not touched.  (The DLW-data name check of the source is vacuous
here: DLW data is outside the modelled core and always empty.) -/
def Cell.add_cell (c : Cell) (child : Cell) (origin : Pt) (angle : Option ℚ)
    (columns rows : ℤ) (spacing : Option (ℚ × ℚ)) : Cell :=
  match c with
  | .mk cid nm ls ks bc =>
    .mk cid nm ls (ks.append ⟨origin, angle, none, false, columns, rows, spacing⟩ child) bc

mutual
/-- All cell objects of a tree in pre-order (the root followed by every cell
reachable through child instances, with one list entry per occurrence). -/
def Cell.allCells : Cell → List Cell
  | .mk cid nm ls ks bc => .mk cid nm ls ks bc :: CKids.allCells ks
/-- All cell objects hanging off a child list, in order. -/
def CKids.allCells : CKids → List Cell
  | .nil => []
  | .cons _ c rest => Cell.allCells c ++ CKids.allCells rest
end

/-- Translation of `shapely_adapter.bounds_union` on a nonempty list
(column-wise min/max); callers guard against empty lists as the source does. -/
def bounds_union : List B4 → B4
  | [] => ⟨0, 0, 0, 0⟩
  | b :: rest =>
    rest.foldl (fun a c => ⟨min a.minx c.minx, min a.miny c.miny,
                            max a.maxx c.maxx, max a.maxy c.maxy⟩) b

/-- The `bounds_union(bounds) if len(bounds) > 0 else None` idiom of
`Cell.get_bounds`. -/
def boundsUnionOpt (l : List B4) : Option B4 :=
  if l.isEmpty then none else some (bounds_union l)

/-- Translation of `shapely_adapter.transform_bounds` with the default
`scale=1` used by `Cell.get_bounds`; cosine and sine come from the oracle. -/
def transform_bounds (E : GeomExt) (bounds : B4) (origin : Pt) (rotation : ℚ) : B4 :=
  let t : B4 := ⟨bounds.minx + origin.1, bounds.miny + origin.2,
                 bounds.maxx + origin.1, bounds.maxy + origin.2⟩
  if rotation ≠ 0 then
    let cx := (t.minx + t.maxx) / 2
    let cy := (t.miny + t.maxy) / 2
    let sx := |t.maxx - t.minx|
    let sy := |t.maxy - t.miny|
    let c := E.qcos rotation
    let s := E.qsin rotation
    let hx := (|c| * sx + |s| * sy) / 2
    let hy := (|s| * sx + |c| * sy) / 2
    let ncx := c * cx - s * cy
    let ncy := s * cx + c * cy
    ⟨ncx - hx, ncy - hy, ncx + hx, ncy + hy⟩
  else t

/-- The `self.layer_dict.get(layer, [])` lookup. -/
def layerLookup : List (LayerId × List Shape) → LayerId → List Shape
  | [], _ => []
  | (l2, gs) :: rest, l => if l2 = l then gs else layerLookup rest l

/-- Bounds of the cell's own layer geometry in dict order, skipping geometries
with empty bounds — the list `Cell.get_bounds` builds before merging children
(and the value it caches for a full-extent query). -/
def ownLayerBoundsList (c : Cell) : List B4 :=
  c.layers.flatMap (fun p => p.2.filterMap shapeBounds)

mutual
/-- Translation of `Cell.get_bounds`: returns the envelope and the updated
cell (the source mutates `self._bounds` and the children's caches in place).
For a full-extent query (`layers=None`) a present cache short-circuits the own
computation; otherwise the own-layer bounds are collected (over all keys when
`layers` is `None` or the empty list, Python's `layers or keys`) and cached
only when `layers is None`.  Children are then queried recursively and their
envelopes transformed by origin and rotation (`angle or 0`). -/
def Cell.get_bounds (E : GeomExt) : Cell → Option (List LayerId) → Option B4 × Cell
  | .mk cid nm ls ks bc, olayers =>
    let ownPair : List B4 × Option B4 :=
      match olayers, bc with
      | none, some b => ([b], some b)
      | _, _ =>
        let gb :=
          match olayers with
          | none => ls.flatMap (fun p => p.2.filterMap shapeBounds)
          | some [] => ls.flatMap (fun p => p.2.filterMap shapeBounds)
          | some sel => sel.flatMap (fun l => (layerLookup ls l).filterMap shapeBounds)
        (gb, match olayers with
             | none => boundsUnionOpt gb
             | some _ => bc)
    let kidPair := CKids.get_bounds E ks olayers
    (boundsUnionOpt (ownPair.1 ++ kidPair.1), .mk cid nm ls kidPair.2 ownPair.2)
/-- Children part of `Cell.get_bounds`: envelopes of the child cells in order
(transformed into the parent frame), plus the updated children. -/
def CKids.get_bounds (E : GeomExt) : CKids → Option (List LayerId) → List B4 × CKids
  | .nil, _ => ([], .nil)
  | .cons r c rest, olayers =>
    let cb := Cell.get_bounds E c olayers
    let rb := CKids.get_bounds E rest olayers
    ((match cb.1 with
      | none => []
      | some b => [transform_bounds E b r.origin (r.angle.getD 0)]) ++ rb.1,
     .cons r cb.2 rb.2)
end

/-- Errors raised by the GDSII export path: the duplicate-cell-name
`AssertionError` of the pre-flight traversal, the no-holes `AssertionError` of
the boundary writer, the `IndexError` on an empty exterior ring, the
`TypeError` on an array reference without spacing, and the fuel-exhaustion
marker standing for a non-terminating fracture loop. -/
inductive Err where
  | dupName (nm : String)
  | holesUnsupported
  | indexError
  | typeError
  | noFuel
deriving DecidableEq

/-- Quantisation of a coordinate pair:
`np.round(np.array(coords) * grid_steps_per_unit).astype('>i4')`. -/
def quantPt (grid_steps_per_unit : ℚ) (p : Pt) : ℤ × ℤ :=
  (roundHalfEven (p.1 * grid_steps_per_unit), roundHalfEven (p.2 * grid_steps_per_unit))

/-- Big-endian byte serialisation of one quantised point (x then y). -/
def encodeIPt (q : ℤ × ℤ) : List ℕ :=
  be32i q.1 ++ be32i q.2

/-- XY record chunking: `for start in range(0, n, 8191)` writes one XY record
per block of at most 8191 points.  Fuel `pts.length` always suffices since
every emitted record consumes at least one point, and exhaustion coincides
with the empty list, which produces no record. -/
def xyChunksF : ℕ → List (ℤ × ℤ) → List ℕ
  | 0, _ => []
  | fuel + 1, pts =>
    if pts.isEmpty then []
    else
      be16 (4 + 8 * min 8191 pts.length) ++ be16 0x1003 ++
      (pts.take 8191).flatMap encodeIPt ++ xyChunksF fuel (pts.drop 8191)

/-- XY records for a point list (see `xyChunksF`). -/
def xyChunks (pts : List (ℤ × ℤ)) : List ℕ :=
  xyChunksF pts.length pts

/-- Per-shape body of `_cell_to_gdsii_binary`'s layer loop: a BOUNDARY record
block for a polygon (raising on any interior hole), a PATH record block for a
line (with the optional WIDTH sub-record), and a warn-and-skip (no bytes) for
any other shape.  The polygon's coordinate list is
`list(exterior.coords) + [exterior.coords[0]]`. -/
def shapeToRecords (layer : LayerId) (grid_steps_per_unit : ℚ) (s : Shape) :
    Except Err (List ℕ) :=
  match s with
  | .polygon outer holes =>
    if holes.isEmpty = false then .error .holesUnsupported
    else
      match outer with
      | [] => .error .indexError
      | p0 :: _ =>
        let coords := outer ++ [p0]
        .ok (be16 4 ++ be16 0x0800 ++
             be16 6 ++ be16 0x0D02 ++ be16 layer.layerNum ++
             be16 6 ++ be16 0x0E02 ++ be16 layer.datatypeNum ++
             xyChunks (coords.map (quantPt grid_steps_per_unit)) ++
             be16 4 ++ be16 0x1100)
  | .line pts w =>
    .ok (be16 4 ++ be16 0x0900 ++
         be16 6 ++ be16 0x0D02 ++ be16 layer.layerNum ++
         be16 6 ++ be16 0x0E02 ++ be16 layer.datatypeNum ++
         (match w with
          | some wd => be16 8 ++ be16 0x0F03 ++ be32i (roundHalfEven (wd * grid_steps_per_unit))
          | none => []) ++
         xyChunks (pts.map (quantPt grid_steps_per_unit)) ++
         be16 4 ++ be16 0x1100)
  | .point _ => .ok []

/-- Concatenated shape records of one layer, stopping at the first error. -/
def shapesToRecords (layer : LayerId) (grid_steps_per_unit : ℚ) :
    List Shape → Except Err (List ℕ)
  | [] => .ok []
  | s :: rest =>
    match shapeToRecords layer grid_steps_per_unit s with
    | .error e => .error e
    | .ok b =>
      match shapesToRecords layer grid_steps_per_unit rest with
      | .error e => .error e
      | .ok bs => .ok (b ++ bs)

/-- Concatenated records of all layers in dict order. -/
def layersToRecords (grid_steps_per_unit : ℚ) :
    List (LayerId × List Shape) → Except Err (List ℕ)
  | [] => .ok []
  | (l, shapes) :: rest =>
    match shapesToRecords l grid_steps_per_unit shapes with
    | .error e => .error e
    | .ok b =>
      match layersToRecords grid_steps_per_unit rest with
      | .error e => .error e
      | .ok bs => .ok (b ++ bs)

/-- Per-instance body of `_cell_to_gdsii_binary`'s reference loop: SREF or
AREF header, SNAME, the optional STRANS/MAG/ANGLE group (emitted only when
some transform field is non-default; the angle is `np.rad2deg(angle) % 360`),
COLROW for array references, the XY record (origin only, or origin plus the
two array edge points `origin + (spacing_x*columns, 0)` and
`origin + (0, spacing_y*rows)`), and ENDEL.  An array reference without
spacing raises (`ref['spacing'][0]` on `None`). -/
def refToBinary (E : GeomExt) (grid_steps_per_unit : ℚ) (r : CRef) (childName : String) :
    Except Err (List ℕ) :=
  let aref := decide (¬ (r.columns = 1 ∧ r.rows = 1 ∧ r.spacing = none))
  let nm := padName childName
  let header := if aref then be16 4 ++ be16 0x0B00 else be16 4 ++ be16 0x0A00
  let sname := be16 (4 + nm.length) ++ be16 0x1206 ++ asciiBytes nm
  let strans :=
    if r.angle.isSome ∨ r.magnification.isSome ∨ r.x_reflection = true then
      be16 6 ++ be16 0x1A01 ++ be16 (if r.x_reflection then 32768 else 0) ++
      (match r.magnification with
       | some m => be16 12 ++ be16 0x1B05 ++ _real_to_8byte m
       | none => []) ++
      (match r.angle with
       | some a => be16 12 ++ be16 0x1C05 ++ _real_to_8byte (qmod (E.rad2deg a) 360)
       | none => [])
    else []
  let colrow := if aref then be16 8 ++ be16 0x1302 ++ be16i r.columns ++ be16i r.rows else []
  let xyHeader := be16 (if aref then 28 else 12) ++ be16 0x1003
  let xyOrigin := encodeIPt (quantPt grid_steps_per_unit r.origin)
  if aref then
    match r.spacing with
    | none => .error .typeError
    | some sp =>
      .ok (header ++ sname ++ strans ++ colrow ++ xyHeader ++ xyOrigin ++
           encodeIPt (quantPt grid_steps_per_unit
             (sp.1 * (r.columns : ℚ) + r.origin.1, 0 + r.origin.2)) ++
           encodeIPt (quantPt grid_steps_per_unit
             (0 + r.origin.1, sp.2 * (r.rows : ℚ) + r.origin.2)) ++
           be16 4 ++ be16 0x1100)
  else
    .ok (header ++ sname ++ strans ++ colrow ++ xyHeader ++ xyOrigin ++
         be16 4 ++ be16 0x1100)

/-- Concatenated reference records of a cell's child list, in order. -/
def refsToRecords (E : GeomExt) (grid_steps_per_unit : ℚ) : CKids → Except Err (List ℕ)
  | .nil => .ok []
  | .cons r c rest =>
    match refToBinary E grid_steps_per_unit r c.name with
    | .error e => .error e
    | .ok b =>
      match refsToRecords E grid_steps_per_unit rest with
      | .error e => .error e
      | .ok bs => .ok (b ++ bs)

/-- One geometry entry of `Cell.get_fractured_layer_dict`: empty geometries
are skipped, the rest go through `fracture_intelligently` with the default
`over_fracture_factor = 1`; the fragment lists are chained in order. -/
def fractureGeometryList (E : GeomExt) (fuel : ℕ) (max_points max_line_points : ℚ) :
    List Shape → Option (List Shape)
  | [] => some []
  | geo :: rest =>
    match (if geo.isEmpty then some [] else
           fracture_intelligently E fuel geo max_points max_line_points 1),
          fractureGeometryList E fuel max_points max_line_points rest with
    | some a, some b => some (a ++ b)
    | _, _ => none

/-- Layer-by-layer fracturing of `Cell.get_fractured_layer_dict`. -/
def fractureLayers (E : GeomExt) (fuel : ℕ) (max_points max_line_points : ℚ) :
    List (LayerId × List Shape) → Option (List (LayerId × List Shape))
  | [] => some []
  | (l, gs) :: rest =>
    match fractureGeometryList E fuel max_points max_line_points gs,
          fractureLayers E fuel max_points max_line_points rest with
    | some fg, some fr => some ((l, fg) :: fr)
    | _, _ => none

/-- Translation of `Cell.get_fractured_layer_dict`. -/
def Cell.get_fractured_layer_dict (E : GeomExt) (fuel : ℕ) (c : Cell)
    (max_points max_line_points : ℚ) : Option (List (LayerId × List Shape)) :=
  fractureLayers E fuel max_points max_line_points c.layers

/-- A timestamp's first six `timetuple` entries
(year, month, day, hour, minute, second). -/
abbrev TS := ℕ × ℕ × ℕ × ℕ × ℕ × ℕ

/-- The twelve 16-bit words `*timestamp.timetuple()[:6] * 2` pack to. -/
def tsBytes (t : TS) : List ℕ :=
  be16 t.1 ++ be16 t.2.1 ++ be16 t.2.2.1 ++ be16 t.2.2.2.1 ++
  be16 t.2.2.2.2.1 ++ be16 t.2.2.2.2.2

/-- Translation of `gdsii_export._cell_to_gdsii_binary`: BGNSTR and STRNAME,
the fractured layer dict's shape records, the child reference records and
ENDSTR, or the first error raised on the way (the local `BytesIO` of a failing
cell contributes no bytes). -/
def _cell_to_gdsii_binary (E : GeomExt) (fuel : ℕ) (cell : Cell)
    (grid_steps_per_unit max_points max_line_points : ℚ) (ts : TS) : Except Err (List ℕ) :=
  match Cell.get_fractured_layer_dict E fuel cell max_points max_line_points with
  | none => .error .noFuel
  | some fr =>
    let nm := padName cell.name
    let head := be16 28 ++ be16 0x0502 ++ tsBytes ts ++ tsBytes ts ++
                be16 (4 + nm.length) ++ be16 0x0606 ++ asciiBytes nm
    match layersToRecords grid_steps_per_unit fr with
    | .error e => .error e
    | .ok shapeBytes =>
      match refsToRecords E grid_steps_per_unit cell.kids with
      | .error e => .error e
      | .ok refBytes => .ok (head ++ shapeBytes ++ refBytes ++ be16 4 ++ be16 0x0700)

/-- Accumulator state of `add_cells_to_unique_list`: the `cells` and
`cell_names` lists of `write_cell_to_gdsii_file`. -/
structure TravState where
  cells : List Cell
  names : List String

mutual
/-- Translation of the nested `add_cells_to_unique_list`: append the cell and
its name, then walk its child instances.  A child whose object (identity tag)
was seen before is skipped; a child with a fresh object but an already-used
name raises the duplicate-name `AssertionError`, carried here as the offending
name. -/
def add_cells_to_unique_list : Cell → TravState → Except String TravState
  | .mk cid nm ls ks bc, st =>
    addRefList ks ⟨st.cells ++ [.mk cid nm ls ks bc], st.names ++ [nm]⟩
/-- The `for c in start_cell.cells` loop of `add_cells_to_unique_list`. -/
def addRefList : CKids → TravState → Except String TravState
  | .nil, st => .ok st
  | .cons _ child rest, st =>
    if st.cells.any (fun e => e.cid = child.cid) then addRefList rest st
    else if st.names.contains child.name then .error child.name
    else
      match add_cells_to_unique_list child st with
      | .error n => .error n
      | .ok st2 => addRefList rest st2
end

/-- Library-level header written before any cell block: HEADER (v6.0), BGNLIB,
LIBNAME (`gdshelpers_exported_library`, NUL-padded to even length) and the
UNITS record holding `grid_step_unit / unit` and `grid_step_unit` where
`grid_step_unit = unit / grid_steps_per_unit`. -/
def libHeaderBytes (unit grid_steps_per_unit : ℚ) (ts : TS) : List ℕ :=
  let libname := padName "gdshelpers_exported_library"
  let grid_step_unit := unit / grid_steps_per_unit
  be16 6 ++ be16 0x0002 ++ be16 0x258 ++
  be16 28 ++ be16 0x0102 ++ tsBytes ts ++ tsBytes ts ++
  be16 (4 + libname.length) ++ be16 0x0206 ++ asciiBytes libname ++
  be16 20 ++ be16 0x0305 ++ _real_to_8byte (grid_step_unit / unit) ++
  _real_to_8byte grid_step_unit

/-- Serial export loop: write each cell's blob in order; a raising cell aborts
with the bytes written so far, a complete run appends ENDLIB. -/
def writeCellsLoop (f : Cell → Except Err (List ℕ)) (acc : List ℕ) :
    List Cell → List ℕ × Option Err
  | [] => (acc ++ be16 4 ++ be16 0x0400, none)
  | c :: rest =>
    match f c with
    | .ok b => writeCellsLoop f (acc ++ b) rest
    | .error e => (acc, some e)

/-- Parallel export consumption loop: the blobs computed by the pool are
written in input order; a failed worker re-raises when its slot is reached. -/
def writeBlobsLoop (acc : List ℕ) : List (Except Err (List ℕ)) → List ℕ × Option Err
  | [] => (acc ++ be16 4 ++ be16 0x0400, none)
  | .ok b :: rest => writeBlobsLoop (acc ++ b) rest
  | .error e :: _ => (acc, some e)

/-- Modelled from the spec: `ProcessPoolExecutor.map` (external to the
repository) applies the per-cell worker function to every cell and yields the
results in input order, with no shared mutable state between workers. -/
def poolMap (f : Cell → Except Err (List ℕ)) (cells : List Cell) :
    List (Except Err (List ℕ)) :=
  cells.map f

/-- Translation of `gdsii_export.write_cell_to_gdsii_file`: the pre-flight
deduplicating traversal (raising on duplicate names before anything is
written), the library header, the per-cell blobs — computed serially or
through the pool depending on `parallel` — and ENDLIB.  The result is the
full byte list written to `outfile` plus the error that aborted the export,
if any. -/
def write_cell_to_gdsii_file (E : GeomExt) (fuel : ℕ) (cell : Cell)
    (unit grid_steps_per_unit max_points max_line_points : ℚ) (ts : TS)
    (parallel : Bool) : List ℕ × Option Err :=
  match add_cells_to_unique_list cell ⟨[], []⟩ with
  | .error n => ([], some (.dupName n))
  | .ok st =>
    let hdr := libHeaderBytes unit grid_steps_per_unit ts
    let f := fun c =>
      _cell_to_gdsii_binary E fuel c grid_steps_per_unit max_points max_line_points ts
    if parallel then writeBlobsLoop hdr (poolMap f st.cells)
    else writeCellsLoop f hdr st.cells

/-- Budget satisfaction for one fragment: the per-category point budget and,
for polygons, the interior-hole budget. -/
def FracSat (max_points_poly max_points_line : ℚ) (max_interior : ℤ) (s : Shape) : Prop :=
  (s.isPolygon = true →
    (_number_of_points s : ℚ) ≤ max_points_poly ∧ (s.holeCount : ℤ) ≤ max_interior) ∧
  (s.isPolygon = false → (_number_of_points s : ℚ) ≤ max_points_line)

/-- A trivial geometry oracle used by concrete witnesses. -/
def geomExt0 : GeomExt :=
  ⟨fun _ _ => [], fun _ => (0, 0), fun _ _ => false, fun a _ => a, fun _ => 90, id, id⟩

/-- A unit square with a closed 5-point exterior ring, used by witnesses. -/
def unitSquare : Shape :=
  .polygon [(0, 0), (1, 0), (1, 1), (0, 1), (0, 0)] []

theorem fracSat_of_guards (mpp mpl : ℚ) (mi : ℤ) (hpp : 0 < mpp) (hpl : 0 < mpl)
    (s : Shape)
    (h1 : ¬(s.isPolygon = true ∧ (s.holeCount : ℤ) > mi))
    (h2 : ¬((if s.isPolygon then mpp else mpl) ≠ 0 ∧
            (_number_of_points s : ℚ) > (if s.isPolygon then mpp else mpl) ∧
            (if s.isPolygon then mpp else mpl) > 0)) :
    FracSat mpp mpl mi s := by
  cases hp : s.isPolygon with
  | true =>
    simp only [hp, if_true] at h2
    push_neg at h1 h2
    refine ⟨fun _ => ⟨?_, h1 hp⟩, fun hfalse => by simp [hp] at hfalse⟩
    exact le_of_not_lt fun hgt => absurd (h2 (ne_of_gt hpp) hgt) (not_le.mpr hpp)
  | false =>
    simp only [hp, Bool.false_eq_true, if_false] at h2
    push_neg at h2
    refine ⟨fun htrue => by simp [hp] at htrue, fun _ => ?_⟩
    exact le_of_not_lt fun hgt => absurd (h2 (ne_of_gt hpl) hgt) (not_le.mpr hpl)

theorem fractureLoop_sat (E : GeomExt) (mpp mpl : ℚ) (mi : ℤ)
    (hpp : 0 < mpp) (hpl : 0 < mpl) :
    ∀ (fuel : ℕ) (objs : List Shape) (k : ℕ) (out : List Shape),
      fractureLoop E mpp mpl mi fuel objs k = some out →
      (∀ (i : ℕ) (hi : i < objs.length), i < k → FracSat mpp mpl mi (objs.get ⟨i, hi⟩)) →
      ∀ s ∈ out, FracSat mpp mpl mi s := by
  intro fuel
  induction fuel with
  | zero =>
    intro objs k out hrun hinv
    simp [fractureLoop] at hrun
  | succ fuel ih =>
    intro objs k out hrun hinv
    simp only [fractureLoop] at hrun
    by_cases h : k < objs.length
    · rw [dif_pos h] at hrun
      have hbefore : ∀ (tail : List Shape) (i : ℕ)
          (hi : i < (objs.eraseIdx k ++ tail).length), i < k →
          FracSat mpp mpl mi ((objs.eraseIdx k ++ tail).get ⟨i, hi⟩) := by
        intro tail i hi hik
        have hlen := List.length_eraseIdx_add_one h
        have he : i < (objs.eraseIdx k).length := by omega
        have hio : i < objs.length := by omega
        have heq : (objs.eraseIdx k ++ tail).get ⟨i, hi⟩ = objs.get ⟨i, hio⟩ := by
          rw [List.get_eq_getElem, List.get_eq_getElem, List.getElem_append_left he,
              List.getElem_eraseIdx_of_lt objs k i he hik]
        rw [heq]
        exact hinv i hio hik
      by_cases h1 : (objs.get ⟨k, h⟩).isPolygon = true ∧ ((objs.get ⟨k, h⟩).holeCount : ℤ) > mi
      · rw [if_pos h1] at hrun
        exact ih _ _ _ hrun (hbefore _)
      · rw [if_neg h1] at hrun
        by_cases h2 : (if (objs.get ⟨k, h⟩).isPolygon then mpp else mpl) ≠ 0 ∧
            (_number_of_points (objs.get ⟨k, h⟩) : ℚ) >
              (if (objs.get ⟨k, h⟩).isPolygon then mpp else mpl) ∧
            (if (objs.get ⟨k, h⟩).isPolygon then mpp else mpl) > 0
        · rw [if_pos h2] at hrun
          exact ih _ _ _ hrun (hbefore _)
        · rw [if_neg h2] at hrun
          refine ih _ _ _ hrun ?_
          intro i hi hik
          rcases Nat.lt_succ_iff_lt_or_eq.mp hik with hlt | heq
          · exact hinv i hi hlt
          · subst heq
            exact fracSat_of_guards mpp mpl mi hpp hpl _ h1 h2
    · rw [dif_neg h] at hrun
      injection hrun with hout
      subst hout
      intro s hs
      obtain ⟨⟨i, hi⟩, rfl⟩ := List.mem_iff_get.mp hs
      exact hinv i hi (lt_of_lt_of_le hi (le_of_not_lt h))

/-- C1: for every shape, positive budgets and any behaviour of the geometry
kernel, if `fracture` returns then every returned fragment satisfies its
category's point budget (`max_points_poly` for polygons, `max_points_line`
otherwise) and every returned polygon has at most `max_interior` interior
holes. -/
theorem fracture_respects_budgets (E : GeomExt) (fuel : ℕ) (obj : Shape)
    (max_points_poly max_points_line : ℚ) (max_interior : ℤ)
    (hpp : 0 < max_points_poly) (hpl : 0 < max_points_line) (hmi : 0 < max_interior)
    (out : List Shape)
    (hrun : fracture E fuel obj max_points_poly max_points_line max_interior = some out) :
    ∀ s ∈ out,
      (s.isPolygon = true →
        (_number_of_points s : ℚ) ≤ max_points_poly ∧ (s.holeCount : ℤ) ≤ max_interior) ∧
      (s.isPolygon = false → (_number_of_points s : ℚ) ≤ max_points_line) := by
  exact fractureLoop_sat E max_points_poly max_points_line max_interior hpp hpl fuel
    [obj] 0 out hrun (fun i hi hik => absurd hik (Nat.not_lt_zero i))

/-- Witness for C1 at a concrete run: fracturing a unit square with budgets
(10, 10, 1) returns it unchanged and the theorem's conclusion holds on it. -/
theorem fracture_respects_budgets_witness :
    (0 : ℚ) < 10 ∧ (0 : ℤ) < 1 ∧
    fracture geomExt0 2 unitSquare 10 10 1 = some [unitSquare] ∧
    ∀ s ∈ [unitSquare],
      (s.isPolygon = true → (_number_of_points s : ℚ) ≤ 10 ∧ (s.holeCount : ℤ) ≤ 1) ∧
      (s.isPolygon = false → (_number_of_points s : ℚ) ≤ 10) := by
  refine ⟨by norm_num, by norm_num, by decide, ?_⟩
  exact fracture_respects_budgets geomExt0 2 unitSquare 10 10 1 (by norm_num) (by norm_num)
    (by norm_num) [unitSquare] (by decide)

theorem fractureLoop_singleton_in_budget (E : GeomExt) (mpp mpl : ℚ) (mi : ℤ)
    (p : Shape) (f : ℕ)
    (h1 : ¬(p.isPolygon = true ∧ (p.holeCount : ℤ) > mi))
    (h2 : ¬((if p.isPolygon then mpp else mpl) ≠ 0 ∧
            (_number_of_points p : ℚ) > (if p.isPolygon then mpp else mpl) ∧
            (if p.isPolygon then mpp else mpl) > 0)) :
    fractureLoop E mpp mpl mi (f + 2) [p] 0 = some [p] := by
  simp [fractureLoop, h1, h2]

theorem heal_singleton (E : GeomExt) (p : Shape) (max_points : ℚ) (max_interior : ℤ) :
    heal E [p] max_points max_interior = [p] := by
  simp [heal, healWhile, healPass, healScan]

/-- C6: a hole-free polygon whose point count is within `max_points` is
returned unchanged as the single fragment of `fracture_intelligently` with the
default `over_fracture_factor = 1` (two loop steps of fuel suffice). -/
theorem fracture_intelligently_identity_on_small_polygon (E : GeomExt) (fuel : ℕ)
    (outer : List Pt) (max_points max_points_line : ℚ)
    (hmp : 0 < max_points) (hn : ((outer.length : ℕ) : ℚ) ≤ max_points) (hfuel : 2 ≤ fuel) :
    fracture_intelligently E fuel (.polygon outer []) max_points max_points_line 1 =
      some [.polygon outer []] := by
  obtain ⟨f, rfl⟩ : ∃ f, fuel = f + 2 := ⟨fuel - 2, by omega⟩
  have h1 : ¬((Shape.polygon outer []).isPolygon = true ∧
      ((Shape.polygon outer []).holeCount : ℤ) > 0) := by
    simp [Shape.isPolygon, Shape.holeCount]
  have h2 : ¬((if (Shape.polygon outer []).isPolygon then max_points else max_points_line) ≠ 0 ∧
      (_number_of_points (Shape.polygon outer []) : ℚ) >
        (if (Shape.polygon outer []).isPolygon then max_points else max_points_line) ∧
      (if (Shape.polygon outer []).isPolygon then max_points else max_points_line) > 0) := by
    simp only [Shape.isPolygon, if_true, _number_of_points]
    intro hc
    exact absurd hc.2.1 (not_lt.mpr (by simpa using hn))
  have hfr : fracture E (f + 2) (.polygon outer []) max_points max_points_line 0 =
      some [.polygon outer []] :=
    fractureLoop_singleton_in_budget E max_points max_points_line 0 _ f h1 h2
  simp [fracture_intelligently, hfr, heal_singleton]

/-- Witness for C6: the unit square with budgets (10, 10) and fuel 2. -/
theorem fracture_intelligently_identity_witness :
    (0 : ℚ) < 10 ∧
    fracture_intelligently geomExt0 2 (.polygon [(0, 0), (1, 0), (1, 1), (0, 1), (0, 0)] [])
      10 10 1 = some [.polygon [(0, 0), (1, 0), (1, 1), (0, 1), (0, 0)] []] := by
  refine ⟨by norm_num, ?_⟩
  exact fracture_intelligently_identity_on_small_polygon geomExt0 2
    [(0, 0), (1, 0), (1, 1), (0, 1), (0, 0)] 10 10 (by norm_num) (by norm_num) (by norm_num)

theorem mergeAt_length (objs : List Shape) (i j : ℕ) (u : Shape)
    (hi : i < objs.length) (hj : j < objs.length) :
    (mergeAt objs i j u).length + 1 = objs.length := by
  have h1 : max i j < (objs ++ [u]).length := by
    simp only [List.length_append, List.length_cons, List.length_nil]
    omega
  have h2 : ((objs ++ [u]).eraseIdx (max i j)).length = objs.length := by
    rw [List.length_eraseIdx, if_pos h1]
    simp only [List.length_append, List.length_cons, List.length_nil]
    omega
  have h4 : min i j < ((objs ++ [u]).eraseIdx (max i j)).length := by
    rw [h2]; omega
  have h3 : (((objs ++ [u]).eraseIdx (max i j)).eraseIdx (min i j)).length =
      objs.length - 1 := by
    rw [List.length_eraseIdx, if_pos h4, h2]
  unfold mergeAt
  rw [h3]
  omega

theorem healScan_some_lt (E : GeomExt) (mp : ℚ) (mi : ℤ) (p : Shape) (pPts : ℕ)
    (objs : List Shape) :
    ∀ (fuel j0 j : ℕ) (u : Shape),
      healScan E mp mi p pPts objs fuel j0 = some (j, u) → j < objs.length := by
  intro fuel
  induction fuel with
  | zero => intro j0 j u h; simp [healScan] at h
  | succ fuel ih =>
    intro j0 j u h
    simp only [healScan] at h
    split at h
    case isTrue hlt =>
      split at h
      case isTrue => exact ih _ _ _ h
      case isFalse =>
        split at h
        case isTrue => exact ih _ _ _ h
        case isFalse =>
          split at h
          case isTrue => exact ih _ _ _ h
          case isFalse =>
            split at h
            case isTrue =>
              split at h
              case isTrue => exact ih _ _ _ h
              case isFalse =>
                split at h
                case isTrue => exact ih _ _ _ h
                case isFalse =>
                  split at h
                  case isTrue => exact ih _ _ _ h
                  case isFalse =>
                    injection h with h1
                    injection h1 with h2 h3
                    omega
            case isFalse => exact ih _ _ _ h
    case isFalse => exact Option.noConfusion h

theorem healPass_length_le (E : GeomExt) (mp : ℚ) (mi : ℤ) :
    ∀ (fuel : ℕ) (objs : List Shape) (i : ℕ),
      (healPass E mp mi fuel objs i).1.length ≤ objs.length := by
  intro fuel
  induction fuel with
  | zero => intro objs i; simp [healPass]
  | succ fuel ih =>
    intro objs i
    simp only [healPass]
    split
    case isTrue hlt =>
      split
      case isTrue => exact ih objs (i + 1)
      case isFalse =>
        split
        case h_1 => exact ih objs (i + 1)
        case h_2 j joined heq =>
          have hj := healScan_some_lt E mp mi _ _ objs _ _ _ _ heq
          have hm := mergeAt_length objs i j joined hlt hj
          have hle := ih (mergeAt objs i j joined) (i + 1)
          show (healPass E mp mi fuel (mergeAt objs i j joined) (i + 1)).1.length ≤ objs.length
          omega
    case isFalse => exact le_refl _

theorem healPass_false_eq (E : GeomExt) (mp : ℚ) (mi : ℤ) :
    ∀ (fuel : ℕ) (objs : List Shape) (i : ℕ) (r : List Shape),
      healPass E mp mi fuel objs i = (r, false) → r = objs := by
  intro fuel
  induction fuel with
  | zero =>
    intro objs i r h
    simp only [healPass, Prod.mk.injEq] at h
    exact h.1.symm
  | succ fuel ih =>
    intro objs i r h
    simp only [healPass] at h
    split at h
    case isTrue hlt =>
      split at h
      case isTrue => exact ih objs (i + 1) r h
      case isFalse =>
        split at h
        case h_1 => exact ih objs (i + 1) r h
        case h_2 j joined heq => simp at h
    case isFalse =>
      simp only [Prod.mk.injEq] at h
      exact h.1.symm

theorem healPass_true_length (E : GeomExt) (mp : ℚ) (mi : ℤ) :
    ∀ (fuel : ℕ) (objs : List Shape) (i : ℕ) (r : List Shape),
      healPass E mp mi fuel objs i = (r, true) → r.length < objs.length := by
  intro fuel
  induction fuel with
  | zero => intro objs i r h; simp [healPass] at h
  | succ fuel ih =>
    intro objs i r h
    simp only [healPass] at h
    split at h
    case isTrue hlt =>
      split at h
      case isTrue => exact ih objs (i + 1) r h
      case isFalse =>
        split at h
        case h_1 => exact ih objs (i + 1) r h
        case h_2 j joined heq =>
          have hj := healScan_some_lt E mp mi _ _ objs _ _ _ _ heq
          have hm := mergeAt_length objs i j joined hlt hj
          have hle := healPass_length_le E mp mi fuel (mergeAt objs i j joined) (i + 1)
          have hr : r = (healPass E mp mi fuel (mergeAt objs i j joined) (i + 1)).1 := by
            have hfst := congrArg Prod.fst h
            simpa using hfst.symm
          rw [hr]
          omega
    case isFalse => simp at h

theorem healWhile_fixed (E : GeomExt) (mp : ℚ) (mi : ℤ) :
    ∀ (fuel : ℕ) (objs : List Shape), objs.length < fuel →
      healPass E mp mi (healWhile E mp mi fuel objs).length
        (healWhile E mp mi fuel objs) 0 = (healWhile E mp mi fuel objs, false) := by
  intro fuel
  induction fuel with
  | zero => intro objs h; omega
  | succ fuel ih =>
    intro objs hlen
    simp only [healWhile]
    split
    case h_1 r heq =>
      have hr : r = objs := healPass_false_eq E mp mi objs.length objs 0 r heq
      subst hr
      exact heq
    case h_2 r heq =>
      have hr : r.length < objs.length := healPass_true_length E mp mi objs.length objs 0 r heq
      exact ih r (by omega)

theorem heal_fixed_point (E : GeomExt) (F : List Shape) (max_points : ℚ) (max_interior : ℤ) :
    healPass E max_points max_interior (heal E F max_points max_interior).length
      (heal E F max_points max_interior) 0 = (heal E F max_points max_interior, false) := by
  exact healWhile_fixed E max_points max_interior (F.length + 1) F (Nat.lt_succ_self _)

/-- C7: a fragment list produced by `fracture` and healed once is a fixed
point of `heal`: the next sweep performs no merge, and applying `heal` again
with the same budgets returns the identical list. -/
theorem heal_idempotent (E : GeomExt) (fuel : ℕ) (obj : Shape)
    (max_points_poly max_points_line : ℚ) (fracture_interior : ℤ) (F : List Shape)
    (hF : fracture E fuel obj max_points_poly max_points_line fracture_interior = some F)
    (max_points : ℚ) (max_interior : ℤ) :
    heal E (heal E F max_points max_interior) max_points max_interior =
      heal E F max_points max_interior ∧
    healPass E max_points max_interior (heal E F max_points max_interior).length
      (heal E F max_points max_interior) 0 =
      (heal E F max_points max_interior, false) := by
  refine ⟨?_, heal_fixed_point E F max_points max_interior⟩
  have hfix := heal_fixed_point E F max_points max_interior
  show healWhile E max_points max_interior ((heal E F max_points max_interior).length + 1)
      (heal E F max_points max_interior) = heal E F max_points max_interior
  simp only [healWhile, hfix]

/-- Witness for C7 at a concrete fracture run (the unit square, budgets
(10, 10, 0), fuel 2, healing budgets (10, 0)). -/
theorem heal_idempotent_witness :
    fracture geomExt0 2 unitSquare 10 10 0 = some [unitSquare] ∧
    heal geomExt0 (heal geomExt0 [unitSquare] 10 0) 10 0 = heal geomExt0 [unitSquare] 10 0 := by
  refine ⟨by decide, ?_⟩
  exact (heal_idempotent geomExt0 2 unitSquare 10 10 0 [unitSquare] (by decide) 10 0).1

theorem writeLoops_agree (f : Cell → Except Err (List ℕ)) :
    ∀ (cells : List Cell) (acc : List ℕ),
      writeCellsLoop f acc cells = writeBlobsLoop acc (poolMap f cells) := by
  intro cells
  induction cells with
  | nil => intro acc; rfl
  | cons c rest ih =>
    intro acc
    cases hfc : f c with
    | ok b =>
      simp only [writeCellsLoop, hfc, poolMap, List.map_cons, writeBlobsLoop]
      exact ih (acc ++ b)
    | error e =>
      simp only [writeCellsLoop, hfc, poolMap, List.map_cons, writeBlobsLoop]

/-- C2: for every cell tree and identical export parameters, the parallel
export writes a byte stream identical to the serial one: the per-cell blobs
of `_cell_to_gdsii_binary` are concatenated in the same deduplicated pre-order
cell order in both modes, and an aborting cell aborts both runs at the same
byte position with the same error. -/
theorem write_cell_parallel_serial_identical (E : GeomExt) (fuel : ℕ) (cell : Cell)
    (unit grid_steps_per_unit max_points max_line_points : ℚ) (ts : TS) :
    write_cell_to_gdsii_file E fuel cell unit grid_steps_per_unit
      max_points max_line_points ts true =
    write_cell_to_gdsii_file E fuel cell unit grid_steps_per_unit
      max_points max_line_points ts false := by
  unfold write_cell_to_gdsii_file
  cases add_cells_to_unique_list cell ⟨[], []⟩ with
  | error n => rfl
  | ok st =>
    simp only [Bool.true_eq_false, if_true, if_false, Bool.false_eq_true, ite_true, ite_false]
    exact (writeLoops_agree _ st.cells _).symm

theorem shapeToRecords_polygon_ok (layer : LayerId) (grid_steps_per_unit : ℚ)
    (outer : List Pt) (p0 : Pt) (rest : List Pt) (houter : outer = p0 :: rest) :
    shapeToRecords layer grid_steps_per_unit (.polygon outer []) =
      .ok (be16 4 ++ be16 0x0800 ++
           be16 6 ++ be16 0x0D02 ++ be16 layer.layerNum ++
           be16 6 ++ be16 0x0E02 ++ be16 layer.datatypeNum ++
           xyChunks ((outer ++ [p0]).map (quantPt grid_steps_per_unit)) ++
           be16 4 ++ be16 0x1100) := by
  subst houter
  simp [shapeToRecords]

/-- C3 counterexample: the claim says a fractured polygon with at most one
interior hole is written as a boundary record without raising, but
`_cell_to_gdsii_binary` raises its no-holes `AssertionError`
(`if shapely_object.interiors: raise`) already for this polygon with exactly
one interior hole. -/
theorem shapeToRecords_one_hole_raises :
    Shape.holeCount (.polygon [(0, 0), (10, 0), (10, 10), (0, 10), (0, 0)]
      [[(1, 1), (2, 1), (2, 2), (1, 2), (1, 1)]]) = 1 ∧
    shapeToRecords (.int 1) 1000
      (.polygon [(0, 0), (10, 0), (10, 10), (0, 10), (0, 0)]
        [[(1, 1), (2, 1), (2, 2), (1, 2), (1, 1)]]) = .error .holesUnsupported := by
  exact ⟨rfl, rfl⟩

/-- C3 (amended): the boundary writer raises the fatal no-holes error exactly
for polygons with at least one interior hole; a hole-free polygon (with a
nonempty exterior ring) is written as a boundary record without raising. -/
theorem shapeToRecords_hole_behaviour (layer : LayerId) (grid_steps_per_unit : ℚ)
    (outer : List Pt) (holes : List (List Pt)) :
    (holes ≠ [] →
      shapeToRecords layer grid_steps_per_unit (.polygon outer holes) =
        .error .holesUnsupported) ∧
    (holes = [] → ∀ (p0 : Pt) (rest : List Pt), outer = p0 :: rest →
      shapeToRecords layer grid_steps_per_unit (.polygon outer holes) =
        .ok (be16 4 ++ be16 0x0800 ++
             be16 6 ++ be16 0x0D02 ++ be16 layer.layerNum ++
             be16 6 ++ be16 0x0E02 ++ be16 layer.datatypeNum ++
             xyChunks ((outer ++ [p0]).map (quantPt grid_steps_per_unit)) ++
             be16 4 ++ be16 0x1100)) := by
  constructor
  · intro h
    cases holes with
    | nil => exact absurd rfl h
    | cons a rest2 => simp [shapeToRecords]
  · rintro rfl p0 rest houter
    exact shapeToRecords_polygon_ok layer grid_steps_per_unit outer p0 rest houter

/-- Witness for C3's amended theorem: both cases at concrete inputs. -/
theorem shapeToRecords_hole_behaviour_witness :
    shapeToRecords (.int 1) 1000 (.polygon [(0, 0), (1, 0), (1, 1), (0, 1), (0, 0)]
      [[(0, 0)]]) = .error .holesUnsupported ∧
    shapeToRecords (.int 1) 1000 (.polygon [(0, 0), (1, 0), (1, 1), (0, 1), (0, 0)] []) =
      .ok (be16 4 ++ be16 0x0800 ++
           be16 6 ++ be16 0x0D02 ++ be16 (LayerId.int 1).layerNum ++
           be16 6 ++ be16 0x0E02 ++ be16 (LayerId.int 1).datatypeNum ++
           xyChunks (([(0, 0), (1, 0), (1, 1), (0, 1), (0, 0)] ++ [((0 : ℚ), (0 : ℚ))]).map
             (quantPt 1000)) ++
           be16 4 ++ be16 0x1100) := by
  constructor
  · exact (shapeToRecords_hole_behaviour (.int 1) 1000
      [(0, 0), (1, 0), (1, 1), (0, 1), (0, 0)] [[(0, 0)]]).1 (by decide)
  · exact (shapeToRecords_hole_behaviour (.int 1) 1000
      [(0, 0), (1, 0), (1, 1), (0, 1), (0, 0)] []).2 rfl (0, 0)
      [(1, 0), (1, 1), (0, 1), (0, 0)] rfl

/-- C10: for a hole-free polygon the coordinate list written to the XY record
is the closed exterior ring followed by one extra copy of its first point: the
record holds one more coordinate pair than the ring, and (the ring being
closed, first = last) the first vertex appears twice consecutively at the
end. -/
theorem boundary_xy_ring_plus_first (layer : LayerId) (grid_steps_per_unit : ℚ)
    (outer : List Pt) (p0 : Pt) (rest : List Pt) (houter : outer = p0 :: rest)
    (hclosed : outer.getLast? = some p0) :
    shapeToRecords layer grid_steps_per_unit (.polygon outer []) =
      .ok (be16 4 ++ be16 0x0800 ++
           be16 6 ++ be16 0x0D02 ++ be16 layer.layerNum ++
           be16 6 ++ be16 0x0E02 ++ be16 layer.datatypeNum ++
           xyChunks ((outer ++ [p0]).map (quantPt grid_steps_per_unit)) ++
           be16 4 ++ be16 0x1100) ∧
    (outer ++ [p0]).length = outer.length + 1 ∧
    ∃ pre, outer ++ [p0] = pre ++ [p0, p0] := by
  refine ⟨shapeToRecords_polygon_ok layer grid_steps_per_unit outer p0 rest houter,
    by simp, ?_⟩
  obtain ⟨pre, hpre⟩ := List.getLast?_eq_some_iff.mp hclosed
  exact ⟨pre, by rw [hpre, List.append_assoc]; rfl⟩

/-- Witness for C10: the unit square's boundary block. -/
theorem boundary_xy_ring_plus_first_witness :
    shapeToRecords (.int 1) 1000 (.polygon [(0, 0), (1, 0), (1, 1), (0, 1), (0, 0)] []) =
      .ok (be16 4 ++ be16 0x0800 ++
           be16 6 ++ be16 0x0D02 ++ be16 (LayerId.int 1).layerNum ++
           be16 6 ++ be16 0x0E02 ++ be16 (LayerId.int 1).datatypeNum ++
           xyChunks (([(0, 0), (1, 0), (1, 1), (0, 1), (0, 0)] ++ [((0 : ℚ), (0 : ℚ))]).map
             (quantPt 1000)) ++
           be16 4 ++ be16 0x1100) ∧
    ([((0 : ℚ), (0 : ℚ)), (1, 0), (1, 1), (0, 1), (0, 0)] ++ [((0 : ℚ), (0 : ℚ))]).length =
      [((0 : ℚ), (0 : ℚ)), (1, 0), (1, 1), (0, 1), (0, 0)].length + 1 ∧
    ∃ pre, [((0 : ℚ), (0 : ℚ)), (1, 0), (1, 1), (0, 1), (0, 0)] ++ [((0 : ℚ), (0 : ℚ))] =
      pre ++ [((0 : ℚ), (0 : ℚ)), (0, 0)] := by
  exact boundary_xy_ring_plus_first (.int 1) 1000
    [(0, 0), (1, 0), (1, 1), (0, 1), (0, 0)] (0, 0) [(1, 0), (1, 1), (0, 1), (0, 0)]
    rfl (by decide)

/-- C5 (code bug): `_real_to_8byte` adds the sign flag `0b1` to the excess-64
exponent instead of placing it at bit 63 (`(sign + exponent + 64) << 56`
misses the shift of the sign to the top bit).  At the failing input `-1` the
produced top byte is 66 = 0x42 (bit 63 clear, exponent field 66), whereas the
GDSII REAL_8 encoding of `-1` demands the top byte 0xC1 (sign bit set,
exponent field 65); the emitted bytes decode to +16 instead of -1.  The
positive and zero cases follow the claimed layout: 0 encodes as eight zero
bytes and 1 encodes with top byte 65 = 0x41 and a normalized mantissa
`16^13 = 2^52`. -/
theorem real_to_8byte_sign_bug :
    _real_to_8byte (-1) = [66, 16, 0, 0, 0, 0, 0, 0] ∧
    (_real_to_8byte (-1)).headI / 128 = 0 ∧
    _real_to_8byte 0 = [0, 0, 0, 0, 0, 0, 0, 0] ∧
    _real_to_8byte 1 = [65, 16, 0, 0, 0, 0, 0, 0] := by
  have hlog : floorLog16 |(-1 : ℚ)| = 0 := by
    simp [floorLog16, Nat.log_one_right]
  have hlog1 : floorLog16 |(1 : ℚ)| = 0 := by
    simp [floorLog16, Nat.log_one_right]
  have hneg : _real_to_8byte (-1) = [66, 16, 0, 0, 0, 0, 0, 0] := by
    simp only [_real_to_8byte, if_neg (show (-1 : ℚ) ≠ 0 by norm_num), hlog]
    norm_num [be64n]
    decide
  have hpos : _real_to_8byte 1 = [65, 16, 0, 0, 0, 0, 0, 0] := by
    simp only [_real_to_8byte, if_neg (show (1 : ℚ) ≠ 0 by norm_num), hlog1]
    norm_num [be64n]
    decide
  exact ⟨hneg, by rw [hneg]; rfl, by simp [_real_to_8byte], hpos⟩

theorem refToBinary_sref_angle_eq (E : GeomExt) (g : ℚ) (origin : Pt) (a : ℚ)
    (mag : Option ℚ) (xr : Bool) (nm : String) :
    refToBinary E g ⟨origin, some a, mag, xr, 1, 1, none⟩ nm =
      .ok (be16 4 ++ be16 0x0A00 ++
           be16 (4 + (padName nm).length) ++ be16 0x1206 ++ asciiBytes (padName nm) ++
           be16 6 ++ be16 0x1A01 ++ be16 (if xr then 32768 else 0) ++
           (match mag with
            | some m => be16 12 ++ be16 0x1B05 ++ _real_to_8byte m
            | none => []) ++
           be16 12 ++ be16 0x1C05 ++ _real_to_8byte (qmod (E.rad2deg a) 360) ++
           be16 12 ++ be16 0x1003 ++ encodeIPt (quantPt g origin) ++
           be16 4 ++ be16 0x1100) := by
  simp [refToBinary]

theorem refToBinary_aref_eq (E : GeomExt) (g : ℚ) (origin : Pt) (ang mag : Option ℚ)
    (xr : Bool) (columns rows : ℤ) (sx sy : ℚ) (nm : String) :
    refToBinary E g ⟨origin, ang, mag, xr, columns, rows, some (sx, sy)⟩ nm =
      .ok (be16 4 ++ be16 0x0B00 ++
           be16 (4 + (padName nm).length) ++ be16 0x1206 ++ asciiBytes (padName nm) ++
           (if ang.isSome ∨ mag.isSome ∨ xr = true then
              be16 6 ++ be16 0x1A01 ++ be16 (if xr then 32768 else 0) ++
              (match mag with
               | some m => be16 12 ++ be16 0x1B05 ++ _real_to_8byte m
               | none => []) ++
              (match ang with
               | some a => be16 12 ++ be16 0x1C05 ++ _real_to_8byte (qmod (E.rad2deg a) 360)
               | none => [])
            else []) ++
           be16 8 ++ be16 0x1302 ++ be16i columns ++ be16i rows ++
           be16 28 ++ be16 0x1003 ++
           encodeIPt (quantPt g origin) ++
           encodeIPt (quantPt g (origin.1 + sx * (columns : ℚ), origin.2 + 0)) ++
           encodeIPt (quantPt g (origin.1 + 0, origin.2 + sy * (rows : ℚ))) ++
           be16 4 ++ be16 0x1100) := by
  have haref : ¬((columns : ℤ) = 1 ∧ (rows : ℤ) = 1 ∧
      (some (sx, sy) : Option (ℚ × ℚ)) = none) := by
    rintro ⟨-, -, h⟩; cases h
  simp only [refToBinary, haref, decide_not]
  norm_num
  rw [add_comm (sx * (columns : ℚ)) origin.1, add_comm (sy * (rows : ℚ)) origin.2]

theorem refToBinary_aref_nospacing_eq (E : GeomExt) (g : ℚ) (origin : Pt)
    (ang mag : Option ℚ) (xr : Bool) (columns rows : ℤ) (nm : String)
    (hcr : ¬(columns = 1 ∧ rows = 1)) :
    refToBinary E g ⟨origin, ang, mag, xr, columns, rows, none⟩ nm =
      .error .typeError := by
  have haref : ¬(columns = 1 ∧ rows = 1 ∧ (none : Option (ℚ × ℚ)) = none) := by
    rintro ⟨h1, h2, -⟩; exact hcr ⟨h1, h2⟩
  simp [refToBinary, haref]
  exact fun h1 h2 => hcr ⟨h1, h2⟩

/-- C8: serialized child instances.  (1) A single reference (columns = rows =
1, no spacing, default transforms) carries exactly one XY record of length 12
holding the quantized origin.  (2) An array reference carries one XY record of
length 28 holding three quantized points: the origin,
`origin + (spacing_x * columns, 0)` and `origin + (0, spacing_y * rows)`.
(3) Whenever the instance's angle is set, a rotation sub-record holding the
angle in degrees modulo 360 is emitted.  (4) Scenario: a reference at origin
(10, 10) whose angle converts to 90 degrees yields the XY point
`(round(10 * grid_steps), round(10 * grid_steps))` and a rotation record of
exactly 90.  (5) The array-reference layout of (2) for arbitrary transform
fields: the 3-point XY record together with the full optional STRANS/MAG/ANGLE
group, so rotated (and magnified, reflected) array references are covered.
(6) The rotation clause of (3) in full generality: every instance record with
a set angle whose serialization succeeds — single or array reference, any
other fields — emits the ANGLE sub-record holding the angle in degrees
modulo 360. -/
theorem reference_records_layout :
    (∀ (E : GeomExt) (grid_steps_per_unit : ℚ) (origin : Pt) (nm : String),
      refToBinary E grid_steps_per_unit ⟨origin, none, none, false, 1, 1, none⟩ nm =
        .ok (be16 4 ++ be16 0x0A00 ++
             be16 (4 + (padName nm).length) ++ be16 0x1206 ++ asciiBytes (padName nm) ++
             be16 12 ++ be16 0x1003 ++ encodeIPt (quantPt grid_steps_per_unit origin) ++
             be16 4 ++ be16 0x1100)) ∧
    (∀ (E : GeomExt) (grid_steps_per_unit : ℚ) (origin : Pt) (nm : String)
       (columns rows : ℤ) (sx sy : ℚ),
      refToBinary E grid_steps_per_unit ⟨origin, none, none, false, columns, rows,
          some (sx, sy)⟩ nm =
        .ok (be16 4 ++ be16 0x0B00 ++
             be16 (4 + (padName nm).length) ++ be16 0x1206 ++ asciiBytes (padName nm) ++
             be16 8 ++ be16 0x1302 ++ be16i columns ++ be16i rows ++
             be16 28 ++ be16 0x1003 ++
             encodeIPt (quantPt grid_steps_per_unit origin) ++
             encodeIPt (quantPt grid_steps_per_unit
               (origin.1 + sx * (columns : ℚ), origin.2 + 0)) ++
             encodeIPt (quantPt grid_steps_per_unit
               (origin.1 + 0, origin.2 + sy * (rows : ℚ))) ++
             be16 4 ++ be16 0x1100)) ∧
    (∀ (E : GeomExt) (grid_steps_per_unit : ℚ) (origin : Pt) (nm : String) (theta : ℚ),
      refToBinary E grid_steps_per_unit ⟨origin, some theta, none, false, 1, 1, none⟩ nm =
        .ok (be16 4 ++ be16 0x0A00 ++
             be16 (4 + (padName nm).length) ++ be16 0x1206 ++ asciiBytes (padName nm) ++
             be16 6 ++ be16 0x1A01 ++ be16 0 ++
             be16 12 ++ be16 0x1C05 ++ _real_to_8byte (qmod (E.rad2deg theta) 360) ++
             be16 12 ++ be16 0x1003 ++ encodeIPt (quantPt grid_steps_per_unit origin) ++
             be16 4 ++ be16 0x1100)) ∧
    (∀ (E : GeomExt) (grid_steps_per_unit : ℚ) (nm : String) (theta : ℚ),
      E.rad2deg theta = 90 →
      refToBinary E grid_steps_per_unit ⟨(10, 10), some theta, none, false, 1, 1, none⟩ nm =
        .ok (be16 4 ++ be16 0x0A00 ++
             be16 (4 + (padName nm).length) ++ be16 0x1206 ++ asciiBytes (padName nm) ++
             be16 6 ++ be16 0x1A01 ++ be16 0 ++
             be16 12 ++ be16 0x1C05 ++ _real_to_8byte 90 ++
             be16 12 ++ be16 0x1003 ++
             be32i (roundHalfEven (10 * grid_steps_per_unit)) ++
             be32i (roundHalfEven (10 * grid_steps_per_unit)) ++
             be16 4 ++ be16 0x1100)) ∧
    (∀ (E : GeomExt) (grid_steps_per_unit : ℚ) (origin : Pt) (ang mag : Option ℚ)
       (xr : Bool) (columns rows : ℤ) (sx sy : ℚ) (nm : String),
      refToBinary E grid_steps_per_unit ⟨origin, ang, mag, xr, columns, rows,
          some (sx, sy)⟩ nm =
        .ok (be16 4 ++ be16 0x0B00 ++
             be16 (4 + (padName nm).length) ++ be16 0x1206 ++ asciiBytes (padName nm) ++
             (if ang.isSome ∨ mag.isSome ∨ xr = true then
                be16 6 ++ be16 0x1A01 ++ be16 (if xr then 32768 else 0) ++
                (match mag with
                 | some m => be16 12 ++ be16 0x1B05 ++ _real_to_8byte m
                 | none => []) ++
                (match ang with
                 | some a => be16 12 ++ be16 0x1C05 ++
                             _real_to_8byte (qmod (E.rad2deg a) 360)
                 | none => [])
              else []) ++
             be16 8 ++ be16 0x1302 ++ be16i columns ++ be16i rows ++
             be16 28 ++ be16 0x1003 ++
             encodeIPt (quantPt grid_steps_per_unit origin) ++
             encodeIPt (quantPt grid_steps_per_unit
               (origin.1 + sx * (columns : ℚ), origin.2 + 0)) ++
             encodeIPt (quantPt grid_steps_per_unit
               (origin.1 + 0, origin.2 + sy * (rows : ℚ))) ++
             be16 4 ++ be16 0x1100)) ∧
    (∀ (E : GeomExt) (grid_steps_per_unit : ℚ) (r : CRef) (nm : String) (theta : ℚ)
       (bytes : List ℕ),
      r.angle = some theta →
      refToBinary E grid_steps_per_unit r nm = .ok bytes →
      ∃ pre post, bytes =
        pre ++ be16 12 ++ be16 0x1C05 ++
          _real_to_8byte (qmod (E.rad2deg theta) 360) ++ post) := by
  have hsref : ∀ (E : GeomExt) (g : ℚ) (origin : Pt) (nm : String) (ang : Option ℚ),
      refToBinary E g ⟨origin, ang, none, false, 1, 1, none⟩ nm =
        .ok (be16 4 ++ be16 0x0A00 ++
             be16 (4 + (padName nm).length) ++ be16 0x1206 ++ asciiBytes (padName nm) ++
             (match ang with
              | some a => be16 6 ++ be16 0x1A01 ++ be16 0 ++
                          be16 12 ++ be16 0x1C05 ++ _real_to_8byte (qmod (E.rad2deg a) 360)
              | none => []) ++
             be16 12 ++ be16 0x1003 ++ encodeIPt (quantPt g origin) ++
             be16 4 ++ be16 0x1100) := by
    intro E g origin nm ang
    cases ang with
    | none => simp [refToBinary]
    | some a => simp [refToBinary]
  refine ⟨?_, ?_, ?_, ?_, ?_, ?_⟩
  · intro E g origin nm
    simpa using hsref E g origin nm none
  · intro E g origin nm columns rows sx sy
    have haref : ¬((columns : ℤ) = 1 ∧ (rows : ℤ) = 1 ∧
        (some (sx, sy) : Option (ℚ × ℚ)) = none) := by
      rintro ⟨-, -, h⟩; cases h
    simp only [refToBinary, haref, decide_not, Option.isSome_none, Option.isSome_some,
      Bool.false_eq_true, false_or, or_false]
    norm_num
    rw [add_comm (sx * (columns : ℚ)) origin.1, add_comm (sy * (rows : ℚ)) origin.2]
  · intro E g origin nm theta
    simpa using hsref E g origin nm (some theta)
  · intro E g nm theta hdeg
    have hq : qmod (E.rad2deg theta) 360 = 90 := by
      rw [hdeg]
      norm_num [qmod]
    have h3 := hsref E g (10, 10) nm (some theta)
    simp only [hq] at h3
    simpa [encodeIPt, quantPt] using h3
  · intro E g origin ang mag xr columns rows sx sy nm
    exact refToBinary_aref_eq E g origin ang mag xr columns rows sx sy nm
  · intro E g r nm theta bytes hang hok
    cases r with
    | mk origin ang mag xr columns rows sp =>
      obtain rfl : ang = some theta := hang
      by_cases haref : columns = 1 ∧ rows = 1 ∧ sp = none
      · obtain ⟨rfl, rfl, rfl⟩ := haref
        rw [refToBinary_sref_angle_eq] at hok
        injection hok with hbytes
        subst hbytes
        refine ⟨be16 4 ++ be16 0x0A00 ++
          be16 (4 + (padName nm).length) ++ be16 0x1206 ++ asciiBytes (padName nm) ++
          be16 6 ++ be16 0x1A01 ++ be16 (if xr then 32768 else 0) ++
          (match mag with
           | some m => be16 12 ++ be16 0x1B05 ++ _real_to_8byte m
           | none => []),
          be16 12 ++ be16 0x1003 ++ encodeIPt (quantPt g origin) ++
          be16 4 ++ be16 0x1100, ?_⟩
        simp [List.append_assoc]
      · cases sp with
        | none =>
          have hcr : ¬(columns = 1 ∧ rows = 1) := by
            intro hcr2
            exact haref ⟨hcr2.1, hcr2.2, rfl⟩
          rw [refToBinary_aref_nospacing_eq E g origin (some theta) mag xr
            columns rows nm hcr] at hok
          exact Except.noConfusion hok
        | some spv =>
          obtain ⟨sx, sy⟩ := spv
          rw [refToBinary_aref_eq] at hok
          injection hok with hbytes
          subst hbytes
          refine ⟨be16 4 ++ be16 0x0B00 ++
            be16 (4 + (padName nm).length) ++ be16 0x1206 ++ asciiBytes (padName nm) ++
            be16 6 ++ be16 0x1A01 ++ be16 (if xr then 32768 else 0) ++
            (match mag with
             | some m => be16 12 ++ be16 0x1B05 ++ _real_to_8byte m
             | none => []),
            be16 8 ++ be16 0x1302 ++ be16i columns ++ be16i rows ++
            be16 28 ++ be16 0x1003 ++
            encodeIPt (quantPt g origin) ++
            encodeIPt (quantPt g (origin.1 + sx * (columns : ℚ), origin.2 + 0)) ++
            encodeIPt (quantPt g (origin.1 + 0, origin.2 + sy * (rows : ℚ))) ++
            be16 4 ++ be16 0x1100, ?_⟩
          simp [Option.isSome_some, List.append_assoc]

/-- Witness for C8: the scenario instance at grid_steps_per_unit 1000 with an
oracle whose `rad2deg` sends the stored angle to 90 degrees, and a rotated
array reference whose serialized block carries the rotation sub-record. -/
theorem reference_records_layout_witness :
    geomExt0.rad2deg 1 = 90 ∧
    refToBinary geomExt0 1000 ⟨(10, 10), some 1, none, false, 1, 1, none⟩ "A" =
      .ok (be16 4 ++ be16 0x0A00 ++
           be16 (4 + (padName "A").length) ++ be16 0x1206 ++ asciiBytes (padName "A") ++
           be16 6 ++ be16 0x1A01 ++ be16 0 ++
           be16 12 ++ be16 0x1C05 ++ _real_to_8byte 90 ++
           be16 12 ++ be16 0x1003 ++
           be32i (roundHalfEven (10 * 1000)) ++ be32i (roundHalfEven (10 * 1000)) ++
           be16 4 ++ be16 0x1100) ∧
    (∃ pre post,
      refToBinary geomExt0 1000 ⟨(2, 3), some 1, none, false, 4, 5, some (6, 7)⟩ "B" =
        .ok (pre ++ be16 12 ++ be16 0x1C05 ++
             _real_to_8byte (qmod (geomExt0.rad2deg 1) 360) ++ post)) := by
  refine ⟨rfl, reference_records_layout.2.2.2.1 geomExt0 1000 "A" 1 rfl, ?_⟩
  have h5 := reference_records_layout.2.2.2.2.1 geomExt0 1000 (2, 3) (some 1) none false
    4 5 6 7 "B"
  obtain ⟨pre, post, hpp⟩ := reference_records_layout.2.2.2.2.2 geomExt0 1000
    ⟨(2, 3), some 1, none, false, 4, 5, some (6, 7)⟩ "B" 1 _ rfl h5
  refine ⟨pre, post, ?_⟩
  rw [h5, hpp]

/-- C9: the bounding-box cache invariant of `Cell`.  (1) A freshly constructed
cell has cache `None`.  (2) `add_to_layer` resets the cache to `None`.  (3) A
full-extent query (`layers=None`) on a cell with an empty cache populates the
cache with the envelope of the cell's own layer geometry only (children do not
enter the cached value).  (4) `add_cell` leaves the parent's cache
unchanged. -/
theorem cell_bcache_invariant :
    (∀ (cid : ℕ) (nm : String), (Cell.new cid nm).bcache = none) ∧
    (∀ (c : Cell) (layer : LayerId) (gs : List Shape),
      (c.add_to_layer layer gs).bcache = none) ∧
    (∀ (E : GeomExt) (c : Cell), c.bcache = none →
      ((Cell.get_bounds E c none).2).bcache = boundsUnionOpt (ownLayerBoundsList c)) ∧
    (∀ (c : Cell) (child : Cell) (origin : Pt) (angle : Option ℚ) (columns rows : ℤ)
       (spacing : Option (ℚ × ℚ)),
      (c.add_cell child origin angle columns rows spacing).bcache = c.bcache) := by
  refine ⟨fun _ _ => rfl, ?_, ?_, ?_⟩
  · intro c layer gs
    cases c with
    | mk cid nm ls ks bc => rfl
  · intro E c hbc
    cases c with
    | mk cid nm ls ks bc =>
      cases bc with
      | some b => simp [Cell.bcache] at hbc
      | none => simp [Cell.get_bounds, Cell.bcache, ownLayerBoundsList, Cell.layers]
  · intro c child origin angle columns rows spacing
    cases c with
    | mk cid nm ls ks bc => rfl

/-- Witness for C9: conjunct 3 applied to a concrete cell holding the unit
square, its cache hypothesis discharged by computation. -/
theorem cell_bcache_invariant_witness :
    ((Cell.new 0 "w").add_to_layer (.int 1) [unitSquare]).bcache = none ∧
    ((Cell.get_bounds geomExt0 ((Cell.new 0 "w").add_to_layer (.int 1) [unitSquare])
        none).2).bcache =
      boundsUnionOpt (ownLayerBoundsList ((Cell.new 0 "w").add_to_layer (.int 1)
        [unitSquare])) := by
  refine ⟨cell_bcache_invariant.2.1 (Cell.new 0 "w") (.int 1) [unitSquare], ?_⟩
  exact cell_bcache_invariant.2.2.1 geomExt0 _
    (cell_bcache_invariant.2.1 (Cell.new 0 "w") (.int 1) [unitSquare])

theorem Cell.self_mem_allCells (c : Cell) : c ∈ Cell.allCells c := by
  cases c with
  | mk cid nm ls ks bc => simp [Cell.allCells]

mutual
theorem travNodupA (c : Cell) (st st2 : TravState)
    (hn : st.names.Nodup) (hfresh : c.name ∉ st.names)
    (h : add_cells_to_unique_list c st = .ok st2) : st2.names.Nodup := by
  cases c with
  | mk cid nm ls ks bc =>
    simp only [add_cells_to_unique_list] at h
    refine travNodupB ks _ st2 ?_ h
    rw [List.nodup_append]
    refine ⟨hn, List.nodup_singleton _, ?_⟩
    intro a ha hb
    simp only [List.mem_singleton] at hb
    subst hb
    exact hfresh ha
theorem travNodupB (ks : CKids) (st st2 : TravState)
    (hn : st.names.Nodup)
    (h : addRefList ks st = .ok st2) : st2.names.Nodup := by
  cases ks with
  | nil =>
    simp only [addRefList] at h
    injection h with h2
    subst h2
    exact hn
  | cons r child rest =>
    simp only [addRefList] at h
    split at h
    · exact travNodupB rest st st2 hn h
    · split at h
      · exact Except.noConfusion h
      · rename_i hnamefresh
        split at h
        · exact Except.noConfusion h
        · rename_i stM hM
          have hfresh : child.name ∉ st.names := by
            intro hmem
            exact hnamefresh (by simpa using hmem)
          exact travNodupB rest stM st2 (travNodupA child st stM hn hfresh hM) h
end

mutual
theorem travVisitA (c : Cell) (st st2 : TravState)
    (hh : (st.cells.map Cell.cid ++ (Cell.allCells c).map Cell.cid).Nodup)
    (h : add_cells_to_unique_list c st = .ok st2) :
    st2.cells = st.cells ++ Cell.allCells c ∧
    st2.names = st.names ++ (Cell.allCells c).map Cell.name := by
  cases c with
  | mk cid nm ls ks bc =>
    simp only [add_cells_to_unique_list] at h
    have hh2 : ((st.cells ++ [Cell.mk cid nm ls ks bc]).map Cell.cid ++
        (CKids.allCells ks).map Cell.cid).Nodup := by
      simpa [Cell.allCells, List.append_assoc] using hh
    have hv := travVisitB ks ⟨st.cells ++ [Cell.mk cid nm ls ks bc],
      st.names ++ [nm]⟩ st2 hh2 h
    refine ⟨?_, ?_⟩
    · rw [hv.1]
      simp [Cell.allCells]
    · rw [hv.2]
      simp [Cell.allCells, Cell.name]
theorem travVisitB (ks : CKids) (st st2 : TravState)
    (hh : (st.cells.map Cell.cid ++ (CKids.allCells ks).map Cell.cid).Nodup)
    (h : addRefList ks st = .ok st2) :
    st2.cells = st.cells ++ CKids.allCells ks ∧
    st2.names = st.names ++ (CKids.allCells ks).map Cell.name := by
  cases ks with
  | nil =>
    simp only [addRefList] at h
    injection h with h2
    subst h2
    simp [CKids.allCells]
  | cons r child rest =>
    have hguard : st.cells.any (fun e => e.cid = child.cid) = false := by
      rw [List.any_eq_false]
      intro e he
      simp only [decide_eq_true_eq]
      intro heq
      have hdisj := List.disjoint_of_nodup_append hh
      refine hdisj (List.mem_map_of_mem Cell.cid he) ?_
      rw [heq]
      simp only [CKids.allCells, List.map_append, List.mem_append]
      exact Or.inl (List.mem_map_of_mem Cell.cid (Cell.self_mem_allCells child))
    simp only [addRefList, hguard, Bool.false_eq_true, if_false] at h
    split at h
    · exact Except.noConfusion h
    · split at h
      · exact Except.noConfusion h
      · rename_i stM hM
        have hsub1 : (st.cells.map Cell.cid ++ (Cell.allCells child).map Cell.cid).Nodup := by
          refine List.Nodup.sublist ?_ hh
          simp only [CKids.allCells, List.map_append]
          rw [← List.append_assoc]
          exact List.sublist_append_left _ _
        have hv1 := travVisitA child st stM hsub1 hM
        have hsub2 : (stM.cells.map Cell.cid ++ (CKids.allCells rest).map Cell.cid).Nodup := by
          rw [hv1.1]
          simpa [CKids.allCells, List.map_append, List.append_assoc] using hh
        have hv2 := travVisitB rest stM st2 hsub2 h
        refine ⟨?_, ?_⟩
        · rw [hv2.1, hv1.1]
          simp [CKids.allCells, List.append_assoc]
        · rw [hv2.2, hv1.2]
          simp [CKids.allCells, List.map_append, List.append_assoc]
end

/-- C4: exporting a cell tree (pairwise distinct cell objects, modelled by
pairwise distinct identity tags) that contains two distinct cells sharing one
name raises the naming-collision error during the pre-flight traversal, before
any byte is written: the output stream is empty. -/
theorem write_duplicate_name_preflight_error (E : GeomExt) (fuel : ℕ) (root : Cell)
    (unit grid_steps_per_unit max_points max_line_points : ℚ) (ts : TS) (parallel : Bool)
    (hheap : ((Cell.allCells root).map Cell.cid).Nodup)
    (c1 c2 : Cell) (h1 : c1 ∈ Cell.allCells root) (h2 : c2 ∈ Cell.allCells root)
    (hne : c1 ≠ c2) (hname : c1.name = c2.name) :
    ∃ nm, write_cell_to_gdsii_file E fuel root unit grid_steps_per_unit
      max_points max_line_points ts parallel = ([], some (.dupName nm)) := by
  cases htr : add_cells_to_unique_list root ⟨[], []⟩ with
  | error n =>
    refine ⟨n, ?_⟩
    unfold write_cell_to_gdsii_file
    rw [htr]
  | ok st =>
    exfalso
    have hv := travVisitA root ⟨[], []⟩ st (by simpa using hheap) htr
    have hnodup : st.names.Nodup :=
      travNodupA root ⟨[], []⟩ st List.nodup_nil (List.not_mem_nil _) htr
    rw [hv.2] at hnodup
    simp only [List.nil_append] at hnodup
    exact hne (List.inj_on_of_nodup_map hnodup h1 h2 hname)

/-- Witness for C4: a root with two distinct children both named "x". -/
theorem write_duplicate_name_preflight_error_witness :
    ∃ nm, write_cell_to_gdsii_file geomExt0 9
      (.mk 0 "r" [] (.cons ⟨(0, 0), none, none, false, 1, 1, none⟩ (Cell.new 1 "x")
        (.cons ⟨(0, 0), none, none, false, 1, 1, none⟩ (Cell.new 2 "x") .nil)) none)
      (1 / 1000000) 1000 4000 4000 (2020, 1, 1, 0, 0, 0) false =
      ([], some (.dupName nm)) := by
  refine write_duplicate_name_preflight_error geomExt0 9 _ (1 / 1000000) 1000 4000 4000
    (2020, 1, 1, 0, 0, 0) false ?_ (Cell.new 1 "x") (Cell.new 2 "x") ?_ ?_ ?_ rfl
  · simp [Cell.allCells, CKids.allCells, Cell.new, Cell.cid]
  · simp [Cell.allCells, CKids.allCells, Cell.new]
  · simp [Cell.allCells, CKids.allCells, Cell.new]
  · intro h
    have := congrArg Cell.cid h
    simp [Cell.new, Cell.cid] at this
